import Mathlib

/-!
Verification of the entity-graph core specification against the repository's
source. Each claim about the code is formalised over a shallow embedding of
the relevant TypeScript modules (and, where the implementing service is not
part of this tree, over a model built from the specification text, marked
`Modelled from the spec:` in the corresponding doc comment).

Embedding conventions: TypeScript strings become `String`, integers become
`Nat`/`Int`, `undefined`-able fields become `Option`, thrown errors become
`Except`, and the persistent store becomes an explicit lookup function or a
state value threaded through the operations.
-/

/-! ## Entity identifiers and link entities

Embeds the identifier model of `@local/hash-subgraph` as used by
`apps/hash-api/src/graph/knowledge/system-types/org-membership.ts`:
an `EntityId` scopes an entity UUID to an owning account. -/

structure EntityId where
  ownedById : String
  entityUuid : String
deriving DecidableEq

/-- Embeds `extractEntityUuidFromEntityId` from `@local/hash-subgraph`:
projects the entity-UUID component out of an `EntityId`. -/
def extractEntityUuidFromEntityId (entityId : EntityId) : String :=
  entityId.entityUuid

structure EntityRecordId where
  entityId : EntityId
deriving DecidableEq

structure EntityMetadata where
  recordId : EntityRecordId
  entityTypeId : String
deriving DecidableEq

structure Entity where
  metadata : EntityMetadata
deriving DecidableEq

/-- A link entity: an entity that additionally designates a left and a right
entity, representing a directed, typed edge (spec §3). -/
structure LinkEntity where
  metadata : EntityMetadata
  leftEntityId : EntityId
  rightEntityId : EntityId
deriving DecidableEq

/-- Embeds `EntityTypeMismatchError` from `apps/hash-api/src/graph/lib/error`:
carries the offending entity's id, the expected entity type id and the actual
entity type id, in constructor-argument order. -/
structure EntityTypeMismatchError where
  entityId : EntityId
  expectedEntityTypeId : String
  actualEntityTypeId : String
deriving DecidableEq

/-- The versioned URL of the system org-membership link entity type,
`SYSTEM_TYPES.linkEntityType.orgMembership.schema.$id`. -/
def orgMembershipLinkEntityTypeId : String :=
  "https://hash.ai/@hash/types/entity-type/org-membership/v/1"

/-- The versioned URL of the system user entity type,
`SYSTEM_TYPES.entityType.user.schema.$id`; a different type (and hence a
different versioned URL) than the org-membership link entity type. -/
def userEntityTypeId : String :=
  "https://hash.ai/@hash/types/entity-type/user/v/1"

structure OrgMembership where
  linkEntity : LinkEntity
deriving DecidableEq

/-- Embeds `getOrgMembershipFromLinkEntity`
(`org-membership.ts`, lines 25–43): rejects a link entity whose
`metadata.entityTypeId` is not the org-membership link entity type, throwing
`EntityTypeMismatchError` with — exactly as the source does — the *user*
entity type id in the expected-type position. -/
def getOrgMembershipFromLinkEntity (linkEntity : LinkEntity) :
    Except EntityTypeMismatchError OrgMembership :=
  if linkEntity.metadata.entityTypeId ≠ orgMembershipLinkEntityTypeId then
    .error
      { entityId := linkEntity.metadata.recordId.entityId
        expectedEntityTypeId := userEntityTypeId
        actualEntityTypeId := linkEntity.metadata.entityTypeId }
  else
    .ok { linkEntity := linkEntity }

/-- A read context over the Graph Store: lookup of the entity currently stored
at an `EntityId` (spec §4.4; the store itself is the Rust `hash-graph`
service, external to this tree). -/
def GraphContext : Type := EntityId → Option Entity

structure CreateLinkEntityParams where
  ownedById : String
  linkEntityTypeId : String
  leftEntityId : EntityId
  rightEntityId : EntityId
deriving DecidableEq

/-- Modelled from the spec: `createLinkEntity` of
`apps/hash-api/src/graph/knowledge/primitive/link-entity.ts` is not under
`src/`; per spec §3/§4.4 it produces a `LinkEntity` of the given link entity
type that designates the given left and right entities. The fresh record id
assigned by the store is taken as a parameter. -/
def createLinkEntity (params : CreateLinkEntityParams) (freshId : EntityId) :
    LinkEntity :=
  { metadata :=
      { recordId := { entityId := freshId }
        entityTypeId := params.linkEntityTypeId }
    leftEntityId := params.leftEntityId
    rightEntityId := params.rightEntityId }

/-- Modelled from the spec: `getLinkEntityLeftEntity` of
`primitive/link-entity.ts` (not under `src/`) fetches the entity stored at the
link's left entity id. -/
def getLinkEntityLeftEntity (ctx : GraphContext) (linkEntity : LinkEntity) :
    Option Entity :=
  ctx linkEntity.leftEntityId

/-- Modelled from the spec: `getLinkEntityRightEntity` of
`primitive/link-entity.ts` (not under `src/`) fetches the entity stored at the
link's right entity id. -/
def getLinkEntityRightEntity (ctx : GraphContext) (linkEntity : LinkEntity) :
    Option Entity :=
  ctx linkEntity.rightEntityId

structure User where
  entity : Entity
deriving DecidableEq

structure Org where
  entity : Entity
deriving DecidableEq

/-- Modelled from the spec: `getUserFromEntity` of `system-types/user.ts`
(not under `src/`) wraps an entity as a `User`. -/
def getUserFromEntity (entity : Entity) : User :=
  { entity := entity }

/-- Modelled from the spec: `getOrgFromEntity` of `system-types/org.ts`
(not under `src/`) wraps an entity as an `Org`. -/
def getOrgFromEntity (entity : Entity) : Org :=
  { entity := entity }

/-- Embeds `createOrgMembership` (`org-membership.ts`, lines 53–77): creates a
link entity of the org-membership type with the user as left entity and the
org as right entity, owned by the org's web, then re-reads it as an
`OrgMembership`. -/
def createOrgMembership (userEntityId orgEntityId : EntityId)
    (freshId : EntityId) : Except EntityTypeMismatchError OrgMembership :=
  getOrgMembershipFromLinkEntity <|
    createLinkEntity
      { ownedById := extractEntityUuidFromEntityId orgEntityId
        linkEntityTypeId := orgMembershipLinkEntityTypeId
        leftEntityId := userEntityId
        rightEntityId := orgEntityId }
      freshId

/-- Embeds `getOrgMembershipOrg` (`org-membership.ts`, lines 84–93): resolves
the membership link's right entity and reads it as an org. -/
def getOrgMembershipOrg (ctx : GraphContext) (orgMembership : OrgMembership) :
    Option Org :=
  (getLinkEntityRightEntity ctx orgMembership.linkEntity).map getOrgFromEntity

/-- Embeds `getOrgMembershipUser` (`org-membership.ts`, lines 100–109):
resolves the membership link's left entity and reads it as a user. -/
def getOrgMembershipUser (ctx : GraphContext) (orgMembership : OrgMembership) :
    Option User :=
  (getLinkEntityLeftEntity ctx orgMembership.linkEntity).map getUserFromEntity

example :
    (getOrgMembershipFromLinkEntity
      { metadata :=
          { recordId := { entityId := ⟨"w", "l"⟩ }
            entityTypeId := orgMembershipLinkEntityTypeId }
        leftEntityId := ⟨"w", "u"⟩
        rightEntityId := ⟨"w", "o"⟩ }).isOk = true := by decide

/-! ## Ontology type record ids and element metadata

Embeds `libs/@local/hash-subgraph/src/types/ontology.ts`
(`src/unnamed/part_004`): `OntologyTypeRecordId`, the versioned-URL
composition, the `isOntologyTypeRecordId` guard, and the owned/external
metadata variants with their field-presence discriminators. -/

structure OntologyTypeRecordId where
  baseUrl : String
  version : Nat
deriving DecidableEq

/-- Renders a natural number's decimal digit `d` (`d < 10`) as its ASCII
character, code `48 + d`. -/
def natDigitChar (d : Nat) : Char :=
  Char.ofNat (48 + d)

/-- The decimal digit characters of `n`, most significant first — the
character sequence JavaScript template interpolation produces for a
non-negative integer. -/
def natToDecimalChars (n : Nat) : List Char :=
  if n < 10 then [natDigitChar n]
  else natToDecimalChars (n / 10) ++ [natDigitChar (n % 10)]
decreasing_by
  exact Nat.div_lt_self (by omega) (by omega)

/-- The decimal rendering of `n`, as interpolated by `${...}`. -/
def natToDecimal (n : Nat) : String :=
  ⟨natToDecimalChars n⟩

/-- Embeds `ontologyTypeRecordIdToVersionedUrl` (`part_004`, lines 42–46):
the template `${baseUrl}v/${version}`. -/
def ontologyTypeRecordIdToVersionedUrl
    (ontologyTypeRecordId : OntologyTypeRecordId) : String :=
  ontologyTypeRecordId.baseUrl ++ "v/" ++
    natToDecimal ontologyTypeRecordId.version

/-- A JavaScript value as far as the `isOntologyTypeRecordId` guard can
observe one: strings, numbers (rationals, so that `Number.isInteger` is a
real test), booleans and null. -/
inductive JsValue
  | str (s : String)
  | num (q : ℚ)
  | boolean (b : Bool)
  | null
deriving DecidableEq

/-- A JavaScript object as a field map (first binding of a name wins). -/
def JsObject : Type := List (String × JsValue)

/-- Field lookup: `field in o` together with `o[field]`. -/
def JsObject.get (o : JsObject) (field : String) : Option JsValue :=
  (List.find? (fun p => p.1 == field) o).map (·.2)

/-- Modelled from the spec: `validateBaseUrl` comes from the external
`@blockprotocol/type-system` package, not from this repository; per spec §3 a
`BaseUrl` is the stable identity of an ontology type, a URL string ending in
`"/"`. We model acceptance as: nonempty and ending in a slash. -/
def validateBaseUrlOk (s : String) : Bool :=
  !s.isEmpty && (s.data.getLast? == some (Char.ofNat 47))

/-- Embeds `isOntologyTypeRecordId` (`part_004`, lines 48–59) exactly as
written: probes a field named `baseId` (together with `validateBaseUrl`), and
a numeric integral field `version`. -/
def isOntologyTypeRecordId (editionId : JsObject) : Bool :=
  (match editionId.get "baseId" with
    | some (.str s) => validateBaseUrlOk s
    | _ => false) &&
  (match editionId.get "version" with
    | some (.num q) => q.isInt
    | _ => false)

/-- The shape named by the claim and by the `OntologyTypeRecordId` type
itself: a string field `baseUrl` passing base-URL validation and an integral
numeric field `version`. -/
def hasOntologyTypeRecordIdShape (o : JsObject) : Bool :=
  (match o.get "baseUrl" with
    | some (.str s) => validateBaseUrlOk s
    | _ => false) &&
  (match o.get "version" with
    | some (.num q) => q.isInt
    | _ => false)

structure ProvenanceMetadata where
  recordCreatedById : String
deriving DecidableEq

/-- A transaction-time interval with an inclusive lower bound and an
exclusive-or-unbounded upper bound (`none` = unbounded). -/
structure TxInterval where
  lowerInclusive : Nat
  upperExclusive : Option Nat
deriving DecidableEq

structure OwnedCustomMetadata where
  ownedById : String
  provenance : ProvenanceMetadata
  transactionTime : TxInterval
deriving DecidableEq

structure ExternalCustomMetadata where
  fetchedAt : String
  provenance : ProvenanceMetadata
  transactionTime : TxInterval
deriving DecidableEq

/-- Embeds the union
`OwnedOntologyElementMetadata | ExternalOntologyElementMetadata`
(`part_004`, lines 63–94): the owned variant's `custom` carries `ownedById`
(and no `fetchedAt`), the external variant's `custom` carries `fetchedAt`
(and no `ownedById`). -/
inductive OntologyElementMetadata
  | owned (recordId : OntologyTypeRecordId) (custom : OwnedCustomMetadata)
  | external (recordId : OntologyTypeRecordId) (custom : ExternalCustomMetadata)
deriving DecidableEq

/-- The value of `metadata.custom.ownedById`, `none` standing for
JavaScript's `undefined` on the variant that lacks the field. -/
def OntologyElementMetadata.customOwnedById :
    OntologyElementMetadata → Option String
  | .owned _ custom => some custom.ownedById
  | .external _ _ => none

/-- The value of `metadata.custom.fetchedAt`, `none` standing for
JavaScript's `undefined` on the variant that lacks the field. -/
def OntologyElementMetadata.customFetchedAt :
    OntologyElementMetadata → Option String
  | .owned _ _ => none
  | .external _ custom => some custom.fetchedAt

/-- Embeds `isExternalOntologyElementMetadata` (`part_004`, lines 124–128):
`metadata.custom.fetchedAt !== undefined`. -/
def isExternalOntologyElementMetadata (metadata : OntologyElementMetadata) :
    Bool :=
  metadata.customFetchedAt.isSome

/-- Embeds `isOwnedOntologyElementMetadata` (`part_004`, lines 130–134):
`metadata.custom.ownedById !== undefined`. -/
def isOwnedOntologyElementMetadata (metadata : OntologyElementMetadata) :
    Bool :=
  metadata.customOwnedById.isSome

example :
    isOntologyTypeRecordId
      [("baseId", .str "https://example.com/t/"), ("version", .num 3)]
      = true := by decide

example :
    isOntologyTypeRecordId
      [("baseUrl", .str "https://example.com/t/"), ("version", .num 3)]
      = false := by decide

/-! ## The page-contents resolver

Embeds `src/packages/hash/backend/src/graphql/resolvers/pages/contents.ts`:
the resolver maps every entry of a page's `contents` list to a database
lookup keyed by `(namespaceId, entityId)`, throws an `ApolloError` with code
`NOT_FOUND` at the first missing entity, and otherwise returns the fetched
records. -/

/-- One entry of a page's `contents` property: the referenced entity's id and
its namespace id. -/
structure ContentRef where
  namespaceId : String
  entityId : String
deriving DecidableEq

/-- A stored database entity (`DbBlock`); the payload stands for the block's
remaining columns, which the resolver passes through untouched. -/
structure DbEntity where
  namespaceId : String
  id : String
  payload : String
deriving DecidableEq

/-- The database adapter's `getEntity({ namespaceId, id })` read interface. -/
def DbAdapter : Type := String → String → Option DbEntity

/-- Embeds `new ApolloError(message, code)` as thrown by the resolver. -/
structure ApolloError where
  message : String
  code : String
deriving DecidableEq

/-- The resolver's error message,
`entity ${entityId} not found in namespace ${namespaceId}`. -/
def contentsNotFoundError (c : ContentRef) : ApolloError :=
  { message := s!"entity {c.entityId} not found in namespace {c.namespaceId}"
    code := "NOT_FOUND" }

/-- The `entities.forEach` pass of the resolver: the content reference whose
fetched entity is missing, scanning index-aligned lists in order. -/
def firstMissing : List ContentRef → List (Option DbEntity) →
    Option ContentRef
  | c :: _, none :: _ => some c
  | _ :: cs, some _ :: es => firstMissing cs es
  | _, _ => none

/-- Embeds the `contents` resolver (`contents.ts`, lines 6–27): fetch every
referenced entity, throw `NOT_FOUND` naming the first missing reference's
entity id and namespace id, else return the fetched records. -/
def contents (pageContents : List ContentRef) (db : DbAdapter) :
    Except ApolloError (List DbEntity) :=
  let entities := pageContents.map (fun c => db c.namespaceId c.entityId)
  match firstMissing pageContents entities with
  | some c => .error (contentsNotFoundError c)
  | none => .ok (entities.filterMap id)

/-! ## Ontology query signatures

Embeds the argument lists of the subgraph-returning ontology operations:
`getEntityType` and `queryEntityTypes` from
`apps/hash-frontend/src/graphql/queries/ontology/entity-type.queries.ts`,
and `getPropertyType` / `getAllLatestPropertyTypes` from the
`propertyTypeTypedef` GraphQL schema (`part_004`, lines 166–215). -/

inductive GqlType
  | int
  | boolean
  | versionedUri
  | versionedUrl
  | outgoingEdgeResolveDepthInput
deriving DecidableEq

structure GqlArg where
  name : String
  argType : GqlType
deriving DecidableEq

/-- `getEntityType` takes the type's versioned URL plus one
`OutgoingEdgeResolveDepthInput` per ontology edge kind. -/
def getEntityTypeArgs : List GqlArg :=
  [⟨"entityTypeId", .versionedUrl⟩,
   ⟨"constrainsValuesOn", .outgoingEdgeResolveDepthInput⟩,
   ⟨"constrainsPropertiesOn", .outgoingEdgeResolveDepthInput⟩,
   ⟨"constrainsLinksOn", .outgoingEdgeResolveDepthInput⟩,
   ⟨"constrainsLinkDestinationsOn", .outgoingEdgeResolveDepthInput⟩,
   ⟨"inheritsFrom", .outgoingEdgeResolveDepthInput⟩]

/-- `queryEntityTypes` takes one `OutgoingEdgeResolveDepthInput` per ontology
edge kind plus two boolean filters. -/
def queryEntityTypesArgs : List GqlArg :=
  [⟨"constrainsValuesOn", .outgoingEdgeResolveDepthInput⟩,
   ⟨"constrainsPropertiesOn", .outgoingEdgeResolveDepthInput⟩,
   ⟨"constrainsLinksOn", .outgoingEdgeResolveDepthInput⟩,
   ⟨"constrainsLinkDestinationsOn", .outgoingEdgeResolveDepthInput⟩,
   ⟨"inheritsFrom", .outgoingEdgeResolveDepthInput⟩,
   ⟨"latestOnly", .boolean⟩,
   ⟨"includeArchived", .boolean⟩]

/-- `getPropertyType(propertyTypeId: VersionedUri!, dataTypeResolveDepth:
Int!, propertyTypeResolveDepth: Int!)`. -/
def getPropertyTypeArgs : List GqlArg :=
  [⟨"propertyTypeId", .versionedUri⟩,
   ⟨"dataTypeResolveDepth", .int⟩,
   ⟨"propertyTypeResolveDepth", .int⟩]

/-- `getAllLatestPropertyTypes(dataTypeResolveDepth: Int!,
propertyTypeResolveDepth: Int!)`. -/
def getAllLatestPropertyTypesArgs : List GqlArg :=
  [⟨"dataTypeResolveDepth", .int⟩,
   ⟨"propertyTypeResolveDepth", .int⟩]

/-- The five ontology edge kinds a resolve depth can bound (spec §3/§6). -/
inductive OntologyEdgeKind
  | constrainsValuesOn
  | constrainsPropertiesOn
  | constrainsLinksOn
  | constrainsLinkDestinationsOn
  | inheritsFrom
deriving DecidableEq

/-- Which ontology edge kind a resolve-depth argument bounds. The entity-type
operations name their depth arguments after the edge kinds themselves; the
property-type operations name them after the traversal target:
`dataTypeResolveDepth` bounds traversal of references to data types — the
constrains-values-on edge — and `propertyTypeResolveDepth` bounds traversal
of references to property types — the constrains-properties-on edge. A
non-depth argument maps to `none`. -/
def depthArgEdgeKind (argName : String) : Option OntologyEdgeKind :=
  if argName = "constrainsValuesOn" ∨ argName = "dataTypeResolveDepth" then
    some .constrainsValuesOn
  else if argName = "constrainsPropertiesOn" ∨
      argName = "propertyTypeResolveDepth" then
    some .constrainsPropertiesOn
  else if argName = "constrainsLinksOn" then some .constrainsLinksOn
  else if argName = "constrainsLinkDestinationsOn" then
    some .constrainsLinkDestinationsOn
  else if argName = "inheritsFrom" then some .inheritsFrom
  else none

/-- A GraphQL type that supplies exactly one integer resolve depth: `Int!`
itself, or `OutgoingEdgeResolveDepthInput` (the input object
`{ outgoing: Int! }`, whose single field is one integer — the input object
type itself is declared outside this tree). -/
def suppliesOneIntegerDepth : GqlType → Bool
  | .int => true
  | .outgoingEdgeResolveDepthInput => true
  | _ => false

/-- The resolve-depth arguments of an operation, as (edge kind, argument
type) pairs in declaration order. -/
def depthArgsOf (args : List GqlArg) : List (OntologyEdgeKind × GqlType) :=
  args.filterMap (fun a => (depthArgEdgeKind a.name).map (fun k => (k, a.argType)))

/-! ## The Graph Store and Temporal Versioning Engine

Modelled from the spec: the Graph Store and Temporal Versioning Engine are
implemented by the Rust `hash-graph` service (`apps/hash-graph`), whose
sources are not part of this tree. Per spec §4.1/§4.4/§5: every mutation
executes a close-old/open-new pair at the transaction time `clock` of the
enclosing transaction; a version's transaction-time interval is half-open
`[txStart, txEnd)` with an unbounded (`none`) upper bound on the currently
open version; closing sets the upper bound to the transaction time of the
superseding version. Versions of one identity are kept newest first. -/

namespace GraphStore

structure TxVersion where
  txStart : Nat
  txEnd : Option Nat
deriving DecidableEq

/-- Whether a version is open: unbounded transaction-time upper bound. -/
def TxVersion.isOpen (v : TxVersion) : Bool :=
  v.txEnd.isNone

/-- Closed-open containment: `txStart ≤ t`, and `t < txEnd` when the upper
bound exists (an unbounded upper bound contains every later instant). -/
def TxVersion.containsTime (v : TxVersion) (t : Nat) : Prop :=
  v.txStart ≤ t ∧ ∀ e, v.txEnd = some e → t < e

/-- Two versions overlap when some instant lies in both transaction-time
intervals. -/
def overlaps (v w : TxVersion) : Prop :=
  ∃ t, v.containsTime t ∧ w.containsTime t

/-- The number of open versions in a version list. -/
def countOpen (l : List TxVersion) : Nat :=
  (l.filter TxVersion.isOpen).length

/-- Pairwise non-overlap of all transaction-time intervals in a list. -/
def pairwiseNonOverlapping (l : List TxVersion) : Prop :=
  l.Pairwise (fun v w => ¬ overlaps v w)

structure State where
  clock : Nat
  versions : EntityId → List TxVersion

/-- The store before any mutation: clock at zero, no versions. -/
def initial : State :=
  { clock := 0, versions := fun _ => [] }

/-- Whether an identity currently has an open (non-archived) version. -/
def hasOpenVersion (s : State) (id : EntityId) : Bool :=
  match s.versions id with
  | v :: _ => v.isOpen
  | [] => false

/-- Modelled from the spec: `createEntity` (§4.4) opens (§4.1) a new version
for a fresh `EntityId` — transaction-time lower bound = now, upper bound
unbounded — inside one transaction; creating an id that already has history
is rejected and leaves the store unchanged. -/
def createEntity (s : State) (id : EntityId) : State :=
  if (s.versions id).isEmpty then
    { clock := s.clock + 1
      versions := fun i =>
        if i = id then [{ txStart := s.clock, txEnd := none }]
        else s.versions i }
  else s

/-- Modelled from the spec: `updateEntity` (§4.4) atomically closes the
current version — setting its upper bound to the transaction time of the
superseding version — and opens the new version at that same transaction
time; with no open version to supersede it fails and leaves the store
unchanged. -/
def updateEntity (s : State) (id : EntityId) : State :=
  match s.versions id with
  | v :: rest =>
      if v.isOpen then
        { clock := s.clock + 1
          versions := fun i =>
            if i = id then
              { txStart := s.clock, txEnd := none } ::
                { v with txEnd := some s.clock } :: rest
            else s.versions i }
      else s
  | [] => s

/-- Modelled from the spec: `archiveEntity` (§4.4) closes the current version
without opening a new one; archiving an identity with no open version leaves
the store unchanged. -/
def archiveEntity (s : State) (id : EntityId) : State :=
  match s.versions id with
  | v :: rest =>
      if v.isOpen then
        { clock := s.clock + 1
          versions := fun i =>
            if i = id then { v with txEnd := some s.clock } :: rest
            else s.versions i }
      else s
  | [] => s

/-- Modelled from the spec: `createLinkEntity` (§4.4) stores a link entity —
an entity record like any other — after validating that neither endpoint is
archived; on a stale endpoint or an already-used id it fails and leaves the
store unchanged. -/
def createLinkEntity (s : State) (id leftId rightId : EntityId) : State :=
  if hasOpenVersion s leftId && hasOpenVersion s rightId then
    createEntity s id
  else s

/-- The states reachable from the empty store by Graph Store mutations. -/
inductive Reachable : State → Prop
  | initial : Reachable GraphStore.initial
  | create {s} (id : EntityId) : Reachable s → Reachable (createEntity s id)
  | update {s} (id : EntityId) : Reachable s → Reachable (updateEntity s id)
  | archive {s} (id : EntityId) : Reachable s → Reachable (archiveEntity s id)
  | createLink {s} (id leftId rightId : EntityId) :
      Reachable s → Reachable (createLinkEntity s id leftId rightId)

/-- A version that is closed with upper bound at most `t` (and nonempty
interval). -/
def closedBefore (t : Nat) (v : TxVersion) : Prop :=
  ∃ e, v.txEnd = some e ∧ v.txStart < e ∧ e ≤ t

/-- Well-formed version history under clock `c`, newest first: every start
is in the past, the head alone may be open, every later version is closed no
later than its predecessor's start. -/
def wfList (c : Nat) : List TxVersion → Prop
  | [] => True
  | v :: rest =>
      v.txStart < c ∧ (v.txEnd = none ∨ closedBefore c v) ∧
        (∀ w ∈ rest, closedBefore v.txStart w) ∧ wfList c rest

/-- Well-formed store: every identity's history is well-formed. -/
def wfState (s : State) : Prop :=
  ∀ id, wfList s.clock (s.versions id)

end GraphStore

/-! ## The Subgraph Resolver

Modelled from the spec: the Subgraph Resolver is implemented by the Rust
`hash-graph` service (`apps/hash-graph`), whose sources are not part of this
tree. Per spec §4.6: evaluate the root filter against the store's view pinned
at the request's temporal axes, follow each edge kind from the frontier while
that kind's own resolve depth is positive, decrementing only that kind's
depth per hop, deduplicate vertices by identity, and assemble the final edge
set restricted to edges whose both endpoints ended up in the vertex set. -/

namespace SubgraphResolver

/-- The ontology and knowledge edge kinds a resolve depth is supplied for
(spec §3/§6). -/
inductive EdgeKind
  | inheritsFrom
  | constrainsValuesOn
  | constrainsPropertiesOn
  | constrainsLinksOn
  | constrainsLinkDestinationsOn
  | hasLeftEntity
  | hasRightEntity
deriving DecidableEq

/-- One independent integer resolve depth per edge kind (spec §4.6). -/
structure ResolveDepths where
  inheritsFrom : Nat
  constrainsValuesOn : Nat
  constrainsPropertiesOn : Nat
  constrainsLinksOn : Nat
  constrainsLinkDestinationsOn : Nat
  hasLeftEntity : Nat
  hasRightEntity : Nat
deriving DecidableEq

def ResolveDepths.get (d : ResolveDepths) : EdgeKind → Nat
  | .inheritsFrom => d.inheritsFrom
  | .constrainsValuesOn => d.constrainsValuesOn
  | .constrainsPropertiesOn => d.constrainsPropertiesOn
  | .constrainsLinksOn => d.constrainsLinksOn
  | .constrainsLinkDestinationsOn => d.constrainsLinkDestinationsOn
  | .hasLeftEntity => d.hasLeftEntity
  | .hasRightEntity => d.hasRightEntity

/-- Decrement exactly one edge kind's depth (the per-hop decrement of
spec §4.6 step 2). -/
def ResolveDepths.dec (d : ResolveDepths) : EdgeKind → ResolveDepths
  | .inheritsFrom => { d with inheritsFrom := d.inheritsFrom - 1 }
  | .constrainsValuesOn => { d with constrainsValuesOn := d.constrainsValuesOn - 1 }
  | .constrainsPropertiesOn => { d with constrainsPropertiesOn := d.constrainsPropertiesOn - 1 }
  | .constrainsLinksOn => { d with constrainsLinksOn := d.constrainsLinksOn - 1 }
  | .constrainsLinkDestinationsOn => { d with constrainsLinkDestinationsOn := d.constrainsLinkDestinationsOn - 1 }
  | .hasLeftEntity => { d with hasLeftEntity := d.hasLeftEntity - 1 }
  | .hasRightEntity => { d with hasRightEntity := d.hasRightEntity - 1 }

/-- The sum of all per-kind depths: an upper bound on the number of hops any
traversal branch can still take, since each hop decrements one kind. -/
def ResolveDepths.total (d : ResolveDepths) : Nat :=
  d.inheritsFrom + d.constrainsValuesOn + d.constrainsPropertiesOn +
    d.constrainsLinksOn + d.constrainsLinkDestinationsOn +
    d.hasLeftEntity + d.hasRightEntity

def allEdgeKinds : List EdgeKind :=
  [.inheritsFrom, .constrainsValuesOn, .constrainsPropertiesOn,
   .constrainsLinksOn, .constrainsLinkDestinationsOn,
   .hasLeftEntity, .hasRightEntity]

/-- A typed, directed edge between two vertex identities (versioned
identities rendered as strings). -/
structure GraphEdge where
  source : String
  kind : EdgeKind
  target : String
deriving DecidableEq

/-- The store's pinned point-in-time view: the vertices and edges visible at
one temporal snapshot. -/
structure GraphView where
  vertices : List String
  edges : List GraphEdge

/-- The temporal axes a resolution is pinned at (spec §4.6/§5): one decision
and one transaction instant, fixed for the whole traversal. -/
structure TemporalAxes where
  decisionTime : Nat
  transactionTime : Nat
deriving DecidableEq

/-- The unit of query response (spec §3): vertices, edges, and the resolve
depths that produced them. -/
structure Subgraph where
  vertices : List String
  edges : List GraphEdge
  depths : ResolveDepths

/-- Bounded bidirectional traversal from one vertex (spec §4.6 steps 2–3):
for every edge kind whose remaining depth is positive, follow that kind's
edges out of `v`, recursing with that kind's depth decremented. The fuel is
an upper bound on remaining hops; `resolve` supplies `depths.total`, which
dominates every branch since each hop spends one unit of one kind's depth. -/
def expand (edges : List GraphEdge) : Nat → ResolveDepths → String → List String
  | 0, _, v => [v]
  | fuel + 1, d, v =>
      v :: (allEdgeKinds.filter (fun k => 0 < d.get k)).flatMap (fun k =>
        (edges.filter (fun e => e.source == v && e.kind == k)).flatMap
          (fun e => expand edges fuel (d.dec k) e.target))

/-- The resolver's vertex set (spec §4.6 steps 1–4): evaluate the root filter
against the pinned view's vertices, expand every root by bounded traversal,
deduplicate by identity. -/
def resolveVertexSet (view : GraphView) (rootFilter : String → Bool)
    (depths : ResolveDepths) : List String :=
  ((view.vertices.filter rootFilter).flatMap
    (fun r => expand view.edges depths.total depths r)).dedup

/-- Modelled from the spec: `resolve(rootFilter, resolveDepths, temporalAxes)
-> Subgraph` (spec §4.6). Roots come from evaluating the root filter against
the view pinned at the temporal axes; traversal expands every root; vertices
are deduplicated by identity (step 4); the edge set is the pinned view's
edges restricted to those with both endpoints in the vertex set (step 5). -/
def resolve (store : TemporalAxes → GraphView) (rootFilter : String → Bool)
    (depths : ResolveDepths) (axes : TemporalAxes) : Subgraph :=
  { vertices := resolveVertexSet (store axes) rootFilter depths
    edges := (store axes).edges.filter (fun e =>
      (resolveVertexSet (store axes) rootFilter depths).contains e.source &&
      (resolveVertexSet (store axes) rootFilter depths).contains e.target)
    depths := depths }

end SubgraphResolver

/-! ## Concrete fixtures

Concrete inputs used by the witness and failing-input theorems below. -/

/-- A link entity whose entity type is some link type other than the
org-membership link entity type. -/
def mistypedLinkEntity : LinkEntity :=
  { metadata :=
      { recordId := { entityId := ⟨"web-1", "link-1"⟩ }
        entityTypeId := "https://hash.ai/@hash/types/entity-type/comment/v/1" }
    leftEntityId := ⟨"web-1", "user-1"⟩
    rightEntityId := ⟨"web-1", "org-1"⟩ }

/-- A link entity of the org-membership link entity type. -/
def orgMembershipLinkEntity : LinkEntity :=
  { metadata :=
      { recordId := { entityId := ⟨"web-1", "link-1"⟩ }
        entityTypeId := orgMembershipLinkEntityTypeId }
    leftEntityId := ⟨"web-1", "user-1"⟩
    rightEntityId := ⟨"web-1", "org-1"⟩ }

def sampleUserId : EntityId := ⟨"web-1", "user-1"⟩

def sampleOrgId : EntityId := ⟨"web-1", "org-1"⟩

def sampleLinkId : EntityId := ⟨"web-1", "link-1"⟩

def sampleUserEntity : Entity :=
  { metadata :=
      { recordId := { entityId := sampleUserId }
        entityTypeId := userEntityTypeId } }

def sampleOrgEntity : Entity :=
  { metadata :=
      { recordId := { entityId := sampleOrgId }
        entityTypeId := "https://hash.ai/@hash/types/entity-type/org/v/1" } }

/-- A graph context holding exactly the sample user and the sample org. -/
def sampleContext : GraphContext := fun id =>
  if id = sampleUserId then some sampleUserEntity
  else if id = sampleOrgId then some sampleOrgEntity
  else none

/-- An object with exactly the `OntologyTypeRecordId` shape: a valid string
`baseUrl` and an integral numeric `version`. -/
def recordIdShapedObject : JsObject :=
  [("baseUrl", .str "https://example.com/types/data-type/text/"),
   ("version", .num 1)]

def sampleRecordId : OntologyTypeRecordId :=
  { baseUrl := "https://example.com/types/data-type/text/", version := 12 }

def otherRecordId : OntologyTypeRecordId :=
  { baseUrl := "https://example.com/types/data-type/number/", version := 12 }

def sampleRefA : ContentRef := ⟨"ns-1", "block-a"⟩

def sampleRefB : ContentRef := ⟨"ns-1", "block-b"⟩

def sampleBlockA : DbEntity := ⟨"ns-1", "block-a", "payload-a"⟩

def sampleBlockB : DbEntity := ⟨"ns-1", "block-b", "payload-b"⟩

/-- A database holding the two sample blocks. -/
def sampleDb : DbAdapter := fun namespaceId id =>
  if namespaceId = "ns-1" ∧ id = "block-a" then some sampleBlockA
  else if namespaceId = "ns-1" ∧ id = "block-b" then some sampleBlockB
  else none

/-- A database missing `block-b`. -/
def sampleDbMissingB : DbAdapter := fun namespaceId id =>
  if namespaceId = "ns-1" ∧ id = "block-a" then some sampleBlockA
  else none

/-- The sample store state after creating one entity and updating it once:
reached by two Graph Store mutations from the empty store. -/
def sampleStoreState : GraphStore.State :=
  GraphStore.updateEntity (GraphStore.createEntity GraphStore.initial sampleUserId)
    sampleUserId

/-- A pinned view with two vertices joined by an inherits-from edge. -/
def sampleGraphView : SubgraphResolver.GraphView :=
  { vertices := ["type-a", "type-b"]
    edges := [{ source := "type-a", kind := .inheritsFrom, target := "type-b" }] }

def sampleStore : SubgraphResolver.TemporalAxes → SubgraphResolver.GraphView :=
  fun _ => sampleGraphView

def sampleDepths : SubgraphResolver.ResolveDepths :=
  { inheritsFrom := 1
    constrainsValuesOn := 0
    constrainsPropertiesOn := 0
    constrainsLinksOn := 0
    constrainsLinkDestinationsOn := 0
    hasLeftEntity := 0
    hasRightEntity := 0 }

def sampleAxes : SubgraphResolver.TemporalAxes :=
  { decisionTime := 5, transactionTime := 7 }

/-- Evaluates a digit-character list back to the number it renders: the
left fold accumulating `acc * 10 + digit`. -/
def decimalValue (l : List Char) : Nat :=
  l.foldl (fun acc c => acc * 10 + (c.toNat - 48)) 0

/-! ## Theorems -/

deriving instance DecidableEq for Except

/-- Claim C1 (code bug at the failing input): on a link entity whose entity
type is not the org-membership link entity type,
`getOrgMembershipFromLinkEntity` does fail with an `EntityTypeMismatchError`
carrying the entity's identity and the actual type found — but the
expected-type position carries the *user* entity type id, not the
org-membership link entity type the function checked against; on a link
entity of the org-membership type it returns the membership without error. -/
theorem c1_mismatch_error_names_user_type :
    (∃ e : EntityTypeMismatchError,
      getOrgMembershipFromLinkEntity mistypedLinkEntity = .error e ∧
      e.entityId = mistypedLinkEntity.metadata.recordId.entityId ∧
      e.actualEntityTypeId = mistypedLinkEntity.metadata.entityTypeId ∧
      e.expectedEntityTypeId = userEntityTypeId ∧
      e.expectedEntityTypeId ≠ orgMembershipLinkEntityTypeId) ∧
    getOrgMembershipFromLinkEntity orgMembershipLinkEntity =
      .ok { linkEntity := orgMembershipLinkEntity } := by
  refine ⟨⟨{ entityId := mistypedLinkEntity.metadata.recordId.entityId
             expectedEntityTypeId := userEntityTypeId
             actualEntityTypeId := mistypedLinkEntity.metadata.entityTypeId },
           ?_, rfl, rfl, rfl, by decide⟩, ?_⟩
  · decide
  · decide

/-- Claim C2: every `OntologyElementMetadata` satisfies exactly one of the
two discriminators: `isOwnedOntologyElementMetadata` holds exactly when the
metadata carries an `ownedById` field, `isExternalOntologyElementMetadata`
exactly when it carries a `fetchedAt` field, and the two are never equal on
the same value — so no value satisfies both or neither. -/
theorem c2_metadata_variants_exclusive (m : OntologyElementMetadata) :
    (isOwnedOntologyElementMetadata m = true ↔ m.customOwnedById ≠ none) ∧
    (isExternalOntologyElementMetadata m = true ↔ m.customFetchedAt ≠ none) ∧
    isOwnedOntologyElementMetadata m ≠ isExternalOntologyElementMetadata m := by
  cases m <;>
    simp [isOwnedOntologyElementMetadata, isExternalOntologyElementMetadata,
      OntologyElementMetadata.customOwnedById,
      OntologyElementMetadata.customFetchedAt]

/-- Claim C3 (code bug at the failing input): an object with exactly the
shape of an `OntologyTypeRecordId` — a string `baseUrl` passing base-URL
validation and an integer `version` — is rejected by the
`isOntologyTypeRecordId` guard, because the guard probes a field named
`baseId` that the type it guards does not have. -/
theorem c3_guard_rejects_record_id_shape :
    hasOntologyTypeRecordIdShape recordIdShapedObject = true ∧
    isOntologyTypeRecordId recordIdShapedObject = false := by
  exact ⟨by decide, by decide⟩

/-- Claim C4: an org membership created for user entity id `userId` and org
entity id `orgId` designates `userId` as the link's left entity and `orgId`
as its right entity, so `getOrgMembershipUser` returns the user stored at
`userId` and `getOrgMembershipOrg` returns the org stored at `orgId`. -/
theorem c4_create_read_round_trip (ctx : GraphContext)
    (userId orgId freshId : EntityId) (u o : Entity)
    (hu : ctx userId = some u) (ho : ctx orgId = some o) :
    ∃ m : OrgMembership,
      createOrgMembership userId orgId freshId = .ok m ∧
      m.linkEntity.leftEntityId = userId ∧
      m.linkEntity.rightEntityId = orgId ∧
      getOrgMembershipUser ctx m = some (getUserFromEntity u) ∧
      getOrgMembershipOrg ctx m = some (getOrgFromEntity o) := by
  refine ⟨⟨createLinkEntity
      ⟨extractEntityUuidFromEntityId orgId, orgMembershipLinkEntityTypeId,
        userId, orgId⟩ freshId⟩, ?_, rfl, rfl, ?_, ?_⟩
  · simp [createOrgMembership, getOrgMembershipFromLinkEntity, createLinkEntity]
  · simp [getOrgMembershipUser, getLinkEntityLeftEntity, createLinkEntity, hu]
  · simp [getOrgMembershipOrg, getLinkEntityRightEntity, createLinkEntity, ho]

/-- Witness for C4: the round trip at the sample context, which stores the
sample user and org at their entity ids. -/
theorem c4_create_read_round_trip_witness :
    ∃ m : OrgMembership,
      createOrgMembership sampleUserId sampleOrgId sampleLinkId = .ok m ∧
      m.linkEntity.leftEntityId = sampleUserId ∧
      m.linkEntity.rightEntityId = sampleOrgId ∧
      getOrgMembershipUser sampleContext m =
        some (getUserFromEntity sampleUserEntity) ∧
      getOrgMembershipOrg sampleContext m =
        some (getOrgFromEntity sampleOrgEntity) :=
  c4_create_read_round_trip sampleContext sampleUserId sampleOrgId
    sampleLinkId sampleUserEntity sampleOrgEntity (by decide) (by decide)

/-- Claim C7: each subgraph-returning ontology operation takes exactly one
integer-valued resolve-depth argument per applicable ontology edge kind —
all five kinds for the entity-type operations, the two kinds applicable to
property types (constrains-values-on and constrains-properties-on) for the
property-type operations — and every such argument supplies exactly one
integer, so depths are per edge kind rather than one global bound. -/
theorem c7_per_edge_kind_depth_arguments :
    (depthArgsOf getEntityTypeArgs).map Prod.fst =
      [.constrainsValuesOn, .constrainsPropertiesOn, .constrainsLinksOn,
       .constrainsLinkDestinationsOn, .inheritsFrom] ∧
    (depthArgsOf queryEntityTypesArgs).map Prod.fst =
      [.constrainsValuesOn, .constrainsPropertiesOn, .constrainsLinksOn,
       .constrainsLinkDestinationsOn, .inheritsFrom] ∧
    (depthArgsOf getPropertyTypeArgs).map Prod.fst =
      [.constrainsValuesOn, .constrainsPropertiesOn] ∧
    (depthArgsOf getAllLatestPropertyTypesArgs).map Prod.fst =
      [.constrainsValuesOn, .constrainsPropertiesOn] ∧
    ((depthArgsOf getEntityTypeArgs).all
        (fun p => suppliesOneIntegerDepth p.2) = true) ∧
    ((depthArgsOf queryEntityTypesArgs).all
        (fun p => suppliesOneIntegerDepth p.2) = true) ∧
    ((depthArgsOf getPropertyTypeArgs).all
        (fun p => suppliesOneIntegerDepth p.2) = true) ∧
    ((depthArgsOf getAllLatestPropertyTypesArgs).all
        (fun p => suppliesOneIntegerDepth p.2) = true) := by
  decide

theorem firstMissing_eq_none (refs : List ContentRef)
    (f : ContentRef → Option DbEntity) (h : ∀ c ∈ refs, (f c).isSome) :
    firstMissing refs (refs.map f) = none := by
  induction refs with
  | nil => rfl
  | cons c cs ih =>
    have hc := h c (List.mem_cons_self c cs)
    match hfc : f c with
    | none => rw [hfc] at hc; simp at hc
    | some e =>
      simp only [List.map_cons, hfc, firstMissing]
      exact ih fun x hx => h x (List.mem_cons_of_mem c hx)

theorem firstMissing_of_missing (refs : List ContentRef)
    (f : ContentRef → Option DbEntity) (h : ∃ c ∈ refs, f c = none) :
    ∃ c ∈ refs, f c = none ∧ firstMissing refs (refs.map f) = some c := by
  induction refs with
  | nil => simp at h
  | cons c cs ih =>
    match hfc : f c with
    | none =>
      refine ⟨c, List.mem_cons_self c cs, hfc, ?_⟩
      simp only [List.map_cons, hfc, firstMissing]
    | some e =>
      have hcs : ∃ x ∈ cs, f x = none := by
        obtain ⟨x, hx, hfx⟩ := h
        rcases List.mem_cons.mp hx with hxc | hxcs
        · rw [hxc, hfc] at hfx; exact absurd hfx (by simp)
        · exact ⟨x, hxcs, hfx⟩
      obtain ⟨x, hx, hfx, hfm⟩ := ih hcs
      refine ⟨x, List.mem_cons_of_mem c hx, hfx, ?_⟩
      simp only [List.map_cons, hfc, firstMissing]
      exact hfm

theorem filterMap_id_all_some (refs : List ContentRef)
    (f : ContentRef → Option DbEntity) (h : ∀ c ∈ refs, (f c).isSome) :
    ((refs.map f).filterMap id).length = refs.length ∧
    ∀ i (hi : i < refs.length) (hb : i < ((refs.map f).filterMap id).length),
      some (((refs.map f).filterMap id).get ⟨i, hb⟩) = f (refs.get ⟨i, hi⟩) := by
  induction refs with
  | nil => simp
  | cons c cs ih =>
    cases hfc : f c with
    | none =>
      have hc := h c (List.mem_cons_self c cs)
      rw [hfc] at hc; simp at hc
    | some e =>
      have hall : ∀ x ∈ cs, (f x).isSome :=
        fun x hx => h x (List.mem_cons_of_mem c hx)
      have hrest := ih hall
      have hcons : ((c :: cs).map f).filterMap id = e :: (cs.map f).filterMap id := by
        simp [hfc]
      constructor
      · rw [hcons, List.length_cons, List.length_cons, hrest.1]
      · intro i hi hb
        cases i with
        | zero => simp [List.get_of_eq hcons, hfc]
        | succ j =>
          have hj : j < cs.length := by simpa using hi
          have hb2 : j < ((cs.map f).filterMap id).length := by
            have hlen := hrest.1
            omega
          have hix := hrest.2 j hj hb2
          rw [List.get_of_eq hcons]
          simpa using hix

/-- Claim C5: if a page's contents list references an entity absent from the
store, the resolver fails with a `NOT_FOUND` `ApolloError` naming the missing
reference's entity id and namespace id (the structured message built by
`contentsNotFoundError`); if every referenced entity exists, it returns the
fetched block records without failing. -/
theorem c5_contents_missing_entity (refs : List ContentRef) (db : DbAdapter) :
    ((∃ c ∈ refs, db c.namespaceId c.entityId = none) →
      ∃ c ∈ refs, db c.namespaceId c.entityId = none ∧
        contents refs db = .error (contentsNotFoundError c) ∧
        (contentsNotFoundError c).code = "NOT_FOUND") ∧
    ((∀ c ∈ refs, (db c.namespaceId c.entityId).isSome) →
      ∃ blocks, contents refs db = .ok blocks) := by
  constructor
  · intro h
    obtain ⟨c, hc, hnone, hfm⟩ :=
      firstMissing_of_missing refs (fun c => db c.namespaceId c.entityId) h
    refine ⟨c, hc, hnone, ?_, rfl⟩
    simp only [contents, hfm]
  · intro h
    have hfm := firstMissing_eq_none refs (fun c => db c.namespaceId c.entityId) h
    exact ⟨(refs.map (fun c => db c.namespaceId c.entityId)).filterMap id,
      by simp only [contents, hfm]⟩

/-- Witness for C5: at the sample database missing `block-b`, the resolver
fails naming `block-b` and `ns-1`; at the complete database it succeeds. -/
theorem c5_contents_missing_entity_witness :
    (∃ c ∈ [sampleRefA, sampleRefB],
      sampleDbMissingB c.namespaceId c.entityId = none ∧
      contents [sampleRefA, sampleRefB] sampleDbMissingB =
        .error (contentsNotFoundError c) ∧
      (contentsNotFoundError c).code = "NOT_FOUND") ∧
    ∃ blocks, contents [sampleRefA, sampleRefB] sampleDb = .ok blocks :=
  ⟨(c5_contents_missing_entity [sampleRefA, sampleRefB] sampleDbMissingB).1
      ⟨sampleRefB, by decide, by decide⟩,
   (c5_contents_missing_entity [sampleRefA, sampleRefB] sampleDb).2
      (by decide)⟩

/-- Claim C10: when every referenced entity exists, the resolver returns one
block per contents entry, and the i-th returned block is exactly the entity
fetched for the i-th content reference — output order equals the order of
the page's contents list. -/
theorem c10_contents_preserves_order (refs : List ContentRef) (db : DbAdapter)
    (h : ∀ c ∈ refs, (db c.namespaceId c.entityId).isSome) :
    ∃ blocks, contents refs db = .ok blocks ∧
      blocks.length = refs.length ∧
      ∀ i (hi : i < refs.length) (hb : i < blocks.length),
        some (blocks.get ⟨i, hb⟩) =
          db (refs.get ⟨i, hi⟩).namespaceId (refs.get ⟨i, hi⟩).entityId := by
  have hfm := firstMissing_eq_none refs (fun c => db c.namespaceId c.entityId) h
  have hlen := filterMap_id_all_some refs (fun c => db c.namespaceId c.entityId) h
  have hok : contents refs db =
      .ok ((refs.map (fun c => db c.namespaceId c.entityId)).filterMap id) := by
    simp only [contents, hfm]
  exact ⟨_, hok, hlen.1, hlen.2⟩

/-- Witness for C10: at the complete sample database, the two-entry contents
list yields the two sample blocks in list order. -/
theorem c10_contents_preserves_order_witness :
    ∃ blocks, contents [sampleRefA, sampleRefB] sampleDb = .ok blocks ∧
      blocks.length = ([sampleRefA, sampleRefB] : List ContentRef).length ∧
      ∀ i (hi : i < ([sampleRefA, sampleRefB] : List ContentRef).length)
        (hb : i < blocks.length),
        some (blocks.get ⟨i, hb⟩) =
          sampleDb (([sampleRefA, sampleRefB] : List ContentRef).get ⟨i, hi⟩).namespaceId
            (([sampleRefA, sampleRefB] : List ContentRef).get ⟨i, hi⟩).entityId :=
  c10_contents_preserves_order [sampleRefA, sampleRefB] sampleDb (by decide)

theorem natDigitChar_toNat (d : Nat) (h : d < 10) :
    (natDigitChar d).toNat = 48 + d := by
  interval_cases d <;> decide

theorem natToDecimalChars_digit (n : Nat) :
    ∀ c ∈ natToDecimalChars n, ∃ d, d < 10 ∧ c = natDigitChar d := by
  induction n using Nat.strong_induction_on with
  | _ n ih =>
    by_cases hn : n < 10
    · rw [natToDecimalChars, if_pos hn]
      intro c hc
      simp only [List.mem_singleton] at hc
      exact ⟨n, hn, hc⟩
    · rw [natToDecimalChars, if_neg hn]
      intro c hc
      rcases List.mem_append.mp hc with h1 | h2
      · exact ih (n / 10) (Nat.div_lt_self (by omega) (by omega)) c h1
      · simp only [List.mem_singleton] at h2
        exact ⟨n % 10, Nat.mod_lt n (by omega), h2⟩

theorem decimalValue_natToDecimalChars (n : Nat) :
    decimalValue (natToDecimalChars n) = n := by
  induction n using Nat.strong_induction_on with
  | _ n ih =>
    by_cases hn : n < 10
    · rw [natToDecimalChars, if_pos hn]
      simp [decimalValue, natDigitChar_toNat n hn]
    · rw [natToDecimalChars, if_neg hn]
      have hdiv := ih (n / 10) (Nat.div_lt_self (by omega) (by omega))
      have hmod : (natDigitChar (n % 10)).toNat = 48 + n % 10 :=
        natDigitChar_toNat (n % 10) (Nat.mod_lt n (by omega))
      simp only [decimalValue, List.foldl_append, List.foldl_cons,
        List.foldl_nil] at hdiv ⊢
      rw [hdiv, hmod]
      omega

theorem slash_not_in_decimalChars (n : Nat) :
    Char.ofNat 47 ∉ natToDecimalChars n := by
  intro hmem
  obtain ⟨d, hd, hc⟩ := natToDecimalChars_digit n (Char.ofNat 47) hmem
  have h1 : (Char.ofNat 47).toNat = 47 := by decide
  have h2 := natDigitChar_toNat d hd
  rw [hc] at h1
  omega

theorem append_last_absurd {x1 x2 d1 d2 : List Char} {sl : Char}
    (hx2 : x2.getLast? = some sl) (hd1 : sl ∉ d1)
    (heq : x1 ++ d1 = x2 ++ d2) (hlt : x1.length < x2.length) : False := by
  have hp1 : x1 <+: x2 ++ d2 := heq ▸ List.prefix_append x1 d1
  have hp2 : x2 <+: x2 ++ d2 := List.prefix_append x2 d2
  have hpre : x1 <+: x2 := List.prefix_of_prefix_length_le hp1 hp2 (Nat.le_of_lt hlt)
  obtain ⟨t, ht⟩ := hpre
  have htne : t ≠ [] := by
    intro h0
    rw [h0, List.append_nil] at ht
    rw [ht] at hlt
    omega
  have hd1eq : d1 = t ++ d2 := by
    have hassoc : x1 ++ d1 = x1 ++ (t ++ d2) := by
      rw [← List.append_assoc, ht]
      exact heq
    exact List.append_cancel_left hassoc
  have hsl : t.getLast htne = sl := by
    rw [← ht, List.getLast?_append, List.getLast?_eq_getLast t htne] at hx2
    simpa using hx2
  have hslmem : sl ∈ t := hsl ▸ List.getLast_mem htne
  exact hd1 (hd1eq ▸ List.mem_append_left d2 hslmem)

theorem append_last_inj {x1 x2 d1 d2 : List Char} {sl : Char}
    (hx1 : x1.getLast? = some sl) (hx2 : x2.getLast? = some sl)
    (hd1 : sl ∉ d1) (hd2 : sl ∉ d2)
    (heq : x1 ++ d1 = x2 ++ d2) : x1 = x2 ∧ d1 = d2 := by
  have hlen : x1.length = x2.length := by
    by_contra hne
    rcases Nat.lt_or_ge x1.length x2.length with hlt | hge
    · exact append_last_absurd hx2 hd1 heq hlt
    · exact append_last_absurd hx1 hd2 heq.symm (by omega)
  exact List.append_inj heq hlen

/-- Claim C6: `ontologyTypeRecordIdToVersionedUrl` returns the concatenation
of the record id's base URL, the literal `"v/"`, and the decimal rendering of
its version; and when both base URLs end in `"/"`, the mapping is injective —
equal versioned URLs force equal base URLs and equal versions. -/
theorem c6_versioned_url_injective :
    (∀ r : OntologyTypeRecordId,
      ontologyTypeRecordIdToVersionedUrl r =
        r.baseUrl ++ "v/" ++ natToDecimal r.version) ∧
    ∀ r1 r2 : OntologyTypeRecordId,
      (∃ p, r1.baseUrl = p ++ "/") → (∃ p, r2.baseUrl = p ++ "/") →
      ontologyTypeRecordIdToVersionedUrl r1 =
        ontologyTypeRecordIdToVersionedUrl r2 →
      r1 = r2 := by
  refine ⟨fun r => rfl, ?_⟩
  rintro ⟨b1, v1⟩ ⟨b2, v2⟩ - - heq
  have hvdata : ("v/" : String).data = ['v', Char.ofNat 47] := by decide
  have hdata : (b1.data ++ ['v', Char.ofNat 47]) ++ natToDecimalChars v1 =
      (b2.data ++ ['v', Char.ofNat 47]) ++ natToDecimalChars v2 := by
    have h1 := congrArg String.data heq
    simp only [ontologyTypeRecordIdToVersionedUrl, String.data_append,
      hvdata] at h1
    simpa [natToDecimal] using h1
  have hgl1 : (b1.data ++ ['v', Char.ofNat 47]).getLast? = some (Char.ofNat 47) := by
    rw [List.getLast?_append]
    simp
  have hgl2 : (b2.data ++ ['v', Char.ofNat 47]).getLast? = some (Char.ofNat 47) := by
    rw [List.getLast?_append]
    simp
  have hinj := append_last_inj hgl1 hgl2
    (slash_not_in_decimalChars v1) (slash_not_in_decimalChars v2) hdata
  have hb : b1 = b2 :=
    String.ext (List.append_cancel_right hinj.1)
  have hv : v1 = v2 := by
    have hval := congrArg decimalValue hinj.2
    rwa [decimalValue_natToDecimalChars, decimalValue_natToDecimalChars] at hval
  rw [hb, hv]

/-- Witness for C6: the injectivity half applied at the sample record id,
whose base URL ends in a slash. -/
theorem c6_versioned_url_injective_witness :
    sampleRecordId = sampleRecordId :=
  c6_versioned_url_injective.2 sampleRecordId sampleRecordId
    ⟨"https://example.com/types/data-type/text", by decide⟩
    ⟨"https://example.com/types/data-type/text", by decide⟩
    rfl

namespace GraphStore

theorem closedBefore_mono {t1 t2 : Nat} (h : t1 ≤ t2) {v : TxVersion}
    (hc : closedBefore t1 v) : closedBefore t2 v := by
  obtain ⟨e, he, h1, h2⟩ := hc
  exact ⟨e, he, h1, Nat.le_trans h2 h⟩

theorem wfList_mono {c1 c2 : Nat} (h : c1 ≤ c2) :
    ∀ {l : List TxVersion}, wfList c1 l → wfList c2 l
  | [], _ => trivial
  | _ :: _, ⟨h1, h2, h3, h4⟩ =>
    ⟨Nat.lt_of_lt_of_le h1 h, h2.imp id (closedBefore_mono h), h3,
      wfList_mono h h4⟩

theorem not_overlaps_of_closedBefore {v w : TxVersion}
    (h : closedBefore v.txStart w) : ¬ overlaps v w := by
  rintro ⟨t, ⟨hv1, -⟩, ⟨-, hw2⟩⟩
  obtain ⟨e, he, h1, h2⟩ := h
  have ht := hw2 e he
  omega

theorem wfList_pairwise {c : Nat} :
    ∀ {l : List TxVersion}, wfList c l → pairwiseNonOverlapping l
  | [], _ => List.Pairwise.nil
  | _ :: _, ⟨_, _, h3, h4⟩ =>
    List.pairwise_cons.mpr
      ⟨fun w hw => not_overlaps_of_closedBefore (h3 w hw),
       wfList_pairwise h4⟩

theorem isOpen_false_of_closedBefore {t : Nat} {v : TxVersion}
    (h : closedBefore t v) : v.isOpen = false := by
  obtain ⟨e, he, -, -⟩ := h
  simp [TxVersion.isOpen, he]

theorem wfList_countOpen {c : Nat} :
    ∀ {l : List TxVersion}, wfList c l → countOpen l ≤ 1
  | [], _ => by simp [countOpen]
  | v :: rest, ⟨_, _, h3, _⟩ => by
    have hrest : rest.filter TxVersion.isOpen = [] := by
      rw [List.filter_eq_nil_iff]
      intro w hw
      simp [isOpen_false_of_closedBefore (h3 w hw)]
    by_cases hv : v.isOpen
    · simp [countOpen, List.filter_cons, hv, hrest]
    · simp [countOpen, List.filter_cons, hv, hrest]

theorem wf_initial : wfState initial := fun _ => trivial

theorem wf_createEntity {s : State} (h : wfState s) (id : EntityId) :
    wfState (createEntity s id) := by
  intro i
  unfold createEntity
  by_cases hemp : (s.versions id).isEmpty
  · simp only [hemp, if_true]
    by_cases hi : i = id
    · simp only [hi, if_pos rfl]
      exact ⟨Nat.lt_succ_self _, Or.inl rfl, by simp, trivial⟩
    · simp only [if_neg hi]
      exact wfList_mono (Nat.le_succ _) (h i)
  · simp only [hemp, if_false]
    exact h i

theorem wf_updateEntity {s : State} (h : wfState s) (id : EntityId) :
    wfState (updateEntity s id) := by
  intro i
  unfold updateEntity
  cases hv : s.versions id with
  | nil => exact h i
  | cons v rest =>
    by_cases hop : v.isOpen
    · simp only [hop, if_true]
      obtain ⟨hstart, -, hprev, hrest⟩ : wfList s.clock (v :: rest) := by
        rw [← hv]; exact h id
      by_cases hi : i = id
      · simp only [hi, if_pos rfl]
        refine ⟨Nat.lt_succ_self _, Or.inl rfl, ?_, ?_⟩
        · intro w hw
          rcases List.mem_cons.mp hw with hwc | hwr
          · exact hwc ▸ ⟨s.clock, rfl, hstart, Nat.le_refl _⟩
          · exact closedBefore_mono (Nat.le_of_lt hstart) (hprev w hwr)
        · refine ⟨Nat.lt_succ_of_lt hstart,
            Or.inr ⟨s.clock, rfl, hstart, Nat.le_succ _⟩, hprev,
            wfList_mono (Nat.le_succ _) hrest⟩
      · simp only [if_neg hi]
        exact wfList_mono (Nat.le_succ _) (h i)
    · simp only [hop, if_false]
      exact h i

theorem wf_archiveEntity {s : State} (h : wfState s) (id : EntityId) :
    wfState (archiveEntity s id) := by
  intro i
  unfold archiveEntity
  cases hv : s.versions id with
  | nil => exact h i
  | cons v rest =>
    by_cases hop : v.isOpen
    · simp only [hop, if_true]
      obtain ⟨hstart, -, hprev, hrest⟩ : wfList s.clock (v :: rest) := by
        rw [← hv]; exact h id
      by_cases hi : i = id
      · simp only [hi, if_pos rfl]
        refine ⟨Nat.lt_succ_of_lt hstart,
          Or.inr ⟨s.clock, rfl, hstart, Nat.le_succ _⟩, hprev,
          wfList_mono (Nat.le_succ _) hrest⟩
      · simp only [if_neg hi]
        exact wfList_mono (Nat.le_succ _) (h i)
    · simp only [hop, if_false]
      exact h i

theorem wf_createLinkEntity {s : State} (h : wfState s)
    (id leftId rightId : EntityId) :
    wfState (createLinkEntity s id leftId rightId) := by
  unfold createLinkEntity
  by_cases hcond : hasOpenVersion s leftId && hasOpenVersion s rightId
  · simp only [hcond, if_true]
    exact wf_createEntity h id
  · simp only [hcond, if_false]
    exact h

theorem reachable_wf {s : State} (h : Reachable s) : wfState s := by
  induction h with
  | initial => exact wf_initial
  | create id _ ih => exact wf_createEntity ih id
  | update id _ ih => exact wf_updateEntity ih id
  | archive id _ ih => exact wf_archiveEntity ih id
  | createLink id leftId rightId _ ih => exact wf_createLinkEntity ih id leftId rightId

end GraphStore

/-- Claim C8: in every store state reachable by Graph Store mutations
(`createEntity`, `updateEntity`, `archiveEntity`, `createLinkEntity`), each
entity id's transaction-time intervals are pairwise non-overlapping and at
most one version has an unbounded upper bound; and `updateEntity` closes the
superseded version by setting its upper bound to exactly the transaction
time at which the superseding version opens. -/
theorem c8_transaction_time_invariant :
    (∀ s, GraphStore.Reachable s → ∀ id : EntityId,
      GraphStore.pairwiseNonOverlapping (s.versions id) ∧
      GraphStore.countOpen (s.versions id) ≤ 1) ∧
    (∀ (s : GraphStore.State) (id : EntityId) (v : GraphStore.TxVersion)
      (rest : List GraphStore.TxVersion),
      s.versions id = v :: rest → v.txEnd = none →
      (GraphStore.updateEntity s id).versions id =
        { txStart := s.clock, txEnd := none } ::
          { txStart := v.txStart, txEnd := some s.clock } :: rest) := by
  constructor
  · intro s hs id
    have hwf := GraphStore.reachable_wf hs id
    exact ⟨GraphStore.wfList_pairwise hwf, GraphStore.wfList_countOpen hwf⟩
  · intro s id v rest hv hopen
    unfold GraphStore.updateEntity
    have hop : v.isOpen = true := by simp [GraphStore.TxVersion.isOpen, hopen]
    simp only [hv, hop, if_true, if_pos rfl]

/-- Witness for C8: the invariant at the sample state reached by creating
the sample entity and updating it once. -/
theorem c8_transaction_time_invariant_witness :
    GraphStore.pairwiseNonOverlapping (sampleStoreState.versions sampleUserId) ∧
    GraphStore.countOpen (sampleStoreState.versions sampleUserId) ≤ 1 :=
  c8_transaction_time_invariant.1 sampleStoreState
    (GraphStore.Reachable.update sampleUserId
      (GraphStore.Reachable.create sampleUserId GraphStore.Reachable.initial))
    sampleUserId

/-- Claim C9: for every subgraph produced by the Subgraph Resolver — over any
pinned store view, root filter, resolve depths and temporal axes — every
edge's source and target vertex identities are present in the subgraph's
vertex set. -/
theorem c9_subgraph_closure
    (store : SubgraphResolver.TemporalAxes → SubgraphResolver.GraphView)
    (rootFilter : String → Bool) (depths : SubgraphResolver.ResolveDepths)
    (axes : SubgraphResolver.TemporalAxes) (e : SubgraphResolver.GraphEdge)
    (he : e ∈ (SubgraphResolver.resolve store rootFilter depths axes).edges) :
    e.source ∈ (SubgraphResolver.resolve store rootFilter depths axes).vertices ∧
    e.target ∈ (SubgraphResolver.resolve store rootFilter depths axes).vertices := by
  unfold SubgraphResolver.resolve at he ⊢
  simp only [List.mem_filter, Bool.and_eq_true] at he
  obtain ⟨-, hsrc, htgt⟩ := he
  constructor
  · simpa using hsrc
  · simpa using htgt

/-- Witness for C9: at the sample pinned view, the trivial root filter and an
inherits-from depth of one, the single edge's endpoints are both vertices of
the resolved subgraph. -/
theorem c9_subgraph_closure_witness :
    ({ source := "type-a", kind := .inheritsFrom, target := "type-b" } :
        SubgraphResolver.GraphEdge).source ∈
      (SubgraphResolver.resolve sampleStore (fun _ => true) sampleDepths
        sampleAxes).vertices ∧
    ({ source := "type-a", kind := .inheritsFrom, target := "type-b" } :
        SubgraphResolver.GraphEdge).target ∈
      (SubgraphResolver.resolve sampleStore (fun _ => true) sampleDepths
        sampleAxes).vertices :=
  c9_subgraph_closure sampleStore (fun _ => true) sampleDepths sampleAxes
    { source := "type-a", kind := .inheritsFrom, target := "type-b" }
    (by decide)
